import Mathlib

/-!
Verification development for `generate_apriltag_boards.py`, a script that
lays out AprilTag fiducial markers on a printable calibration board.

The script's arithmetic is shallowly embedded here: Python floats holding
millimeter measurements become `ℚ`, Python's `int(...)` conversion becomes
`pyInt` (truncation toward zero), the numpy canvas becomes a total function
from integer pixel coordinates to 8-bit intensities, slice assignments
become functional region updates, and the external OpenCV marker generator
(`cv2.aruco.generateImageMarker`), which can fail on an unsupported ID,
becomes a function into `Option`.
-/

/-- Python's `int(...)` applied to a float: truncation toward zero.
On nonnegative arguments this is the floor. -/
def pyInt (q : ℚ) : ℤ := if 0 ≤ q then ⌊q⌋ else ⌈q⌉

theorem pyInt_eq_floor {q : ℚ} (h : 0 ≤ q) : pyInt q = ⌊q⌋ := by
  simp [pyInt, h]

/-- The state built by `AprilTagBoardGenerator.__init__` (source lines
131-157): the constructor arguments.  Millimeter fields are rationals
(Python floats), `dpi` a natural number, `family` the OpenCV numeric
dictionary constant. -/
structure BoardGen where
  family : ℤ
  grid_x : ℕ
  grid_y : ℕ
  tag_size_mm : ℚ
  spacing_mm : ℚ
  border_mm : ℚ
  dpi : ℕ
deriving DecidableEq

/-- Source line 160: `self.pixels_per_mm = self.dpi / 25.4`. -/
def pixels_per_mm (g : BoardGen) : ℚ := (g.dpi : ℚ) / 25.4

/-- Source line 163: `self.tag_size_px = int(self.tag_size_mm * self.pixels_per_mm)`. -/
def tag_size_px (g : BoardGen) : ℤ := pyInt (g.tag_size_mm * pixels_per_mm g)

/-- Source line 164: `self.spacing_px = int(self.spacing_mm * self.pixels_per_mm)`. -/
def spacing_px (g : BoardGen) : ℤ := pyInt (g.spacing_mm * pixels_per_mm g)

/-- Source line 165: `self.border_px = int(self.border_mm * self.pixels_per_mm)`. -/
def border_px (g : BoardGen) : ℤ := pyInt (g.border_mm * pixels_per_mm g)

/-- Source lines 168-170: millimeter board width. -/
def board_width_mm (g : BoardGen) : ℚ :=
  (g.grid_x : ℚ) * g.tag_size_mm + ((g.grid_x : ℚ) - 1) * g.spacing_mm + 2 * g.border_mm

/-- Source lines 171-173: millimeter board height. -/
def board_height_mm (g : BoardGen) : ℚ :=
  (g.grid_y : ℚ) * g.tag_size_mm + ((g.grid_y : ℚ) - 1) * g.spacing_mm + 2 * g.border_mm

/-- Source line 175: `self.board_width_px = int(self.board_width_mm * self.pixels_per_mm)`. -/
def board_width_px (g : BoardGen) : ℤ := pyInt (board_width_mm g * pixels_per_mm g)

/-- Source line 176: `self.board_height_px = int(self.board_height_mm * self.pixels_per_mm)`. -/
def board_height_px (g : BoardGen) : ℤ := pyInt (board_height_mm g * pixels_per_mm g)

/-- A grayscale raster: pixel intensity at integer coordinates `(y, x)`.
Coordinates outside `[0, board_height_px) × [0, board_width_px)` are carried
by the function but never written by in-bounds operations. -/
abbrev Canvas : Type := ℤ → ℤ → ℕ

/-- A square marker bitmap, addressed by local `(y, x)` offsets. -/
abbrev Bitmap : Type := ℤ → ℤ → ℕ

/-- Source line 206: `board = np.ones((H, W), dtype=np.uint8) * 255`. -/
def initialBoard (_g : BoardGen) : Canvas := fun _ _ => 255

/-- Numpy slice assignment `board[y0:y0+size, x0:x0+size] = bm` as a
functional update.  `generate_board` only performs this with the window
inside the canvas (proved below), where numpy's semantics is exactly this
region overwrite. -/
def writeBitmap (c : Canvas) (y0 x0 size : ℤ) (bm : Bitmap) : Canvas :=
  fun y x =>
    if y0 ≤ y ∧ y < y0 + size ∧ x0 ≤ x ∧ x < x0 + size then bm (y - y0) (x - x0)
    else c y x

/-- Numpy slice assignment `board[y0:y1, x0:x1] = v` of a constant. -/
def writeRect (c : Canvas) (y0 y1 x0 x1 : ℤ) (v : ℕ) : Canvas :=
  fun y x => if y0 ≤ y ∧ y < y1 ∧ x0 ≤ x ∧ x < x1 then v else c y x

/-- Source line 227: `x = start_x + col * (self.tag_size_px + self.spacing_px)`
with `start_x = self.border_px`. -/
def tagX (g : BoardGen) (col : ℕ) : ℤ :=
  border_px g + (col : ℤ) * (tag_size_px g + spacing_px g)

/-- Source line 228: `y = start_y + row * (self.tag_size_px + self.spacing_px)`
with `start_y = self.border_px`. -/
def tagY (g : BoardGen) (row : ℕ) : ℤ :=
  border_px g + (row : ℤ) * (tag_size_px g + spacing_px g)

/-- Membership in the destination window of the tag cell `(row, col)`:
the region written by source line 231. -/
def inWindow (g : BoardGen) (row col : ℕ) (y x : ℤ) : Prop :=
  tagY g row ≤ y ∧ y < tagY g row + tag_size_px g ∧
  tagX g col ≤ x ∧ x < tagX g col + tag_size_px g

instance (g : BoardGen) (row col : ℕ) (y x : ℤ) : Decidable (inWindow g row col y x) := by
  unfold inWindow; infer_instance

/-- One placement recorded by the tag loop: `(current_id, row, col)`. -/
abbrev Placement : Type := ℤ × ℕ × ℕ

/-- The inner column loop of source lines 215-233 for one row: walk the
remaining `k` columns starting at column index `col` with running id `cur`;
`if current_id > end_id: break` stops the row.  Returns the placements of
this row and the updated `current_id`. -/
def placeColsAux : ℕ → ℕ → ℤ → ℤ → ℕ → List Placement × ℤ
  | 0, _, cur, _, _ => ([], cur)
  | k + 1, col, cur, endId, row =>
    if endId < cur then ([], cur)
    else
      let rest := placeColsAux k (col + 1) (cur + 1) endId row
      ((cur, row, col) :: rest.1, rest.2)

/-- The outer row loop of source lines 214-233: the `break` leaves only the
inner loop, so every row is visited and rechecks the id bound. -/
def placeRowsAux : ℕ → ℕ → ℤ → ℤ → ℕ → List Placement
  | 0, _, _, _, _ => []
  | k + 1, row, cur, endId, gx =>
    let r := placeColsAux gx 0 cur endId row
    r.1 ++ placeRowsAux k (row + 1) r.2 endId gx

/-- The sequence of `(id, row, col)` placements performed by
`generate_board` for the range `[startId, endId]` (source lines 213-233). -/
def placements (g : BoardGen) (startId endId : ℤ) : List Placement :=
  placeRowsAux g.grid_y 0 startId endId g.grid_x

/-- The marker ids requested from `cv2.aruco.generateImageMarker`, in
request order. -/
def requestedIds (g : BoardGen) (startId endId : ℤ) : List ℤ :=
  (placements g startId endId).map (fun pl => pl.1)

/-- The tag-placement stage of `generate_board` (source lines 206-233):
start from the white canvas and copy each requested marker bitmap into its
cell window.  `gen id = none` models `generateImageMarker` raising on `id`;
the exception propagates, so the whole stage yields `none`. -/
def placeTags (g : BoardGen) (gen : ℤ → Option Bitmap) (startId endId : ℤ) :
    Option Canvas :=
  (placements g startId endId).foldlM
    (fun c pl =>
      Option.map (fun bm => writeBitmap c (tagY g pl.2.1) (tagX g pl.2.2) (tag_size_px g) bm)
        (gen pl.1))
    (initialBoard g)

/-- The same stage under a generator that never fails (used to state canvas
properties; related to `placeTags` by `placeTags_total`). -/
def placeTagsTotal (g : BoardGen) (gen : ℤ → Bitmap) (startId endId : ℤ) : Canvas :=
  (placements g startId endId).foldl
    (fun c pl => writeBitmap c (tagY g pl.2.1) (tagX g pl.2.2) (tag_size_px g) (gen pl.1))
    (initialBoard g)

/-- Source line 237: `corner_square_size = int(10 * self.pixels_per_mm)` —
the 10mm separator-square side, a hard-coded constant of the method. -/
def corner_square_size (g : BoardGen) : ℤ := pyInt (10 * pixels_per_mm g)

/-- Source lines 245-253: vertical position of the separator square in
lattice row `row` (edge rows flush with the canvas, interior rows in the
gap between tag rows). -/
def squareY (g : BoardGen) (row : ℕ) : ℤ :=
  if row = 0 then 0
  else if row = g.grid_y then board_height_px g - corner_square_size g
  else border_px g + (row : ℤ) * tag_size_px g + ((row : ℤ) - 1) * spacing_px g

/-- Source lines 255-263: horizontal position of the separator square in
lattice column `col`. -/
def squareX (g : BoardGen) (col : ℕ) : ℤ :=
  if col = 0 then 0
  else if col = g.grid_x then board_width_px g - corner_square_size g
  else border_px g + (col : ℤ) * tag_size_px g + ((col : ℤ) - 1) * spacing_px g

/-- Source lines 265-273: clip the square at lattice point `(row, col)` to
the canvas and paint the visible part black. -/
def drawSquare (g : BoardGen) (row col : ℕ) (c : Canvas) : Canvas :=
  let sy := squareY g row
  let sx := squareX g col
  let clip_y_start := max 0 sy
  let clip_y_end := min (board_height_px g) (sy + corner_square_size g)
  let clip_x_start := max 0 sx
  let clip_x_end := min (board_width_px g) (sx + corner_square_size g)
  if clip_x_start < clip_x_end ∧ clip_y_start < clip_y_end then
    writeRect c clip_y_start clip_y_end clip_x_start clip_x_end 0
  else c

/-- The `(grid_y+1) × (grid_x+1)` lattice of attempted separator squares,
in the visit order of the loops at source lines 241-242. -/
def squareCells (g : BoardGen) : List (ℕ × ℕ) :=
  (List.range (g.grid_y + 1)).flatMap
    (fun row => (List.range (g.grid_x + 1)).map (fun col => (row, col)))

/-- Source lines 241-273: paint every separator square. -/
def drawSquares (g : BoardGen) (c : Canvas) : Canvas :=
  (squareCells g).foldl (fun c rc => drawSquare g rc.1 rc.2 c) c

/-- `generate_board` (source lines 190-301) up to the separator squares.
The final corner-alignment brackets are four fixed `cv2.line` calls whose
rasterization is owned by OpenCV; they cannot fail and no claim below
concerns their pixels, so they are not modeled. -/
def generate_board (g : BoardGen) (gen : ℤ → Option Bitmap) (startId endId : ℤ) :
    Option Canvas :=
  Option.map (fun c => drawSquares g c) (placeTags g gen startId endId)

/-- OpenCV enum value `cv2.aruco.DICT_APRILTAG_16h5`. -/
def DICT_APRILTAG_16h5 : ℤ := 17

/-- OpenCV enum value `cv2.aruco.DICT_APRILTAG_25h9`. -/
def DICT_APRILTAG_25h9 : ℤ := 18

/-- OpenCV enum value `cv2.aruco.DICT_APRILTAG_36h11`. -/
def DICT_APRILTAG_36h11 : ℤ := 20

/-- Source lines 106-126: map a family name to its OpenCV numeric constant,
falling back to 36h11 on an unknown name. -/
def get_apriltag_family_id (family_name : String) : ℤ :=
  if family_name = "36h11" then DICT_APRILTAG_36h11
  else if family_name = "25h9" then DICT_APRILTAG_25h9
  else if family_name = "16h5" then DICT_APRILTAG_16h5
  else DICT_APRILTAG_36h11

/-- The `apriltag` section of the configuration (source lines 51-59). -/
structure AprilTagCfg where
  family : String
  grid_x : ℕ
  grid_y : ℕ
  tag_size_mm : ℚ
  spacing_mm : ℚ
  border_mm : ℚ
  dpi : ℕ
deriving DecidableEq

/-- One entry of the `boards` list (source lines 60-64). -/
structure BoardCfg where
  name : String
  start_id : ℤ
  end_id : ℤ
deriving DecidableEq

/-- The `features` section of the configuration (source lines 68-74). -/
structure FeaturesCfg where
  corner_markers : Bool
  corner_marker_size_mm : ℚ
  corner_marker_thickness_mm : ℚ
  black_corner_squares : Bool
  corner_square_size_mm : ℚ
deriving DecidableEq

/-- The full configuration dictionary, typed. -/
structure Config where
  apriltag : AprilTagCfg
  boards : List BoardCfg
  output_directory : String
  features : FeaturesCfg
deriving DecidableEq

/-- The built-in `default_config` of `load_config` (source lines 50-75). -/
def default_config : Config where
  apriltag :=
    { family := "36h11", grid_x := 7, grid_y := 7,
      tag_size_mm := 40, spacing_mm := 10, border_mm := 10, dpi := 300 }
  boards :=
    [ { name := "Board 1", start_id := 0, end_id := 48 },
      { name := "Board 2", start_id := 49, end_id := 97 },
      { name := "Board 3", start_id := 98, end_id := 146 } ]
  output_directory := "apriltag_boards"
  features :=
    { corner_markers := true, corner_marker_size_mm := 5,
      corner_marker_thickness_mm := 1, black_corner_squares := true,
      corner_square_size_mm := 10 }

/-- The `apriltag` section as parsed from a YAML file: each subkey may be
absent. -/
structure RawAprilTagCfg where
  family : Option String
  grid_x : Option ℕ
  grid_y : Option ℕ
  tag_size_mm : Option ℚ
  spacing_mm : Option ℚ
  border_mm : Option ℚ
  dpi : Option ℕ

/-- The `output` section as parsed: its subkey may be absent. -/
structure RawOutputCfg where
  directory : Option String

/-- The `features` section as parsed: each subkey may be absent. -/
structure RawFeaturesCfg where
  corner_markers : Option Bool
  corner_marker_size_mm : Option ℚ
  corner_marker_thickness_mm : Option ℚ
  black_corner_squares : Option Bool
  corner_square_size_mm : Option ℚ

/-- A successfully parsed YAML document: each top-level key may be absent. -/
structure RawConfig where
  apriltag : Option RawAprilTagCfg
  boards : Option (List BoardCfg)
  output : Option RawOutputCfg
  features : Option RawFeaturesCfg

/-- Outcome of opening and parsing the config file: the file may be
missing (`FileNotFoundError`), malformed (`yaml.YAMLError`), or parsed. -/
inductive LoadOutcome where
  | missing : LoadOutcome
  | parseError : LoadOutcome
  | parsed : RawConfig → LoadOutcome

/-- The per-subkey default merge of source lines 86-92 applied to the
`apriltag` section. -/
def mergeAprilTag (d : AprilTagCfg) (r : RawAprilTagCfg) : AprilTagCfg where
  family := r.family.getD d.family
  grid_x := r.grid_x.getD d.grid_x
  grid_y := r.grid_y.getD d.grid_y
  tag_size_mm := r.tag_size_mm.getD d.tag_size_mm
  spacing_mm := r.spacing_mm.getD d.spacing_mm
  border_mm := r.border_mm.getD d.border_mm
  dpi := r.dpi.getD d.dpi

/-- The per-subkey default merge applied to the `features` section. -/
def mergeFeatures (d : FeaturesCfg) (r : RawFeaturesCfg) : FeaturesCfg where
  corner_markers := r.corner_markers.getD d.corner_markers
  corner_marker_size_mm := r.corner_marker_size_mm.getD d.corner_marker_size_mm
  corner_marker_thickness_mm := r.corner_marker_thickness_mm.getD d.corner_marker_thickness_mm
  black_corner_squares := r.black_corner_squares.getD d.black_corner_squares
  corner_square_size_mm := r.corner_square_size_mm.getD d.corner_square_size_mm

/-- Source lines 85-92: merge a parsed document with `default_config`.
A missing top-level key takes the whole default section; a present
dictionary section is completed subkey by subkey; the `boards` list, not
being a dictionary, is kept verbatim when present. -/
def mergeConfig (raw : RawConfig) : Config where
  apriltag :=
    match raw.apriltag with
    | none => default_config.apriltag
    | some a => mergeAprilTag default_config.apriltag a
  boards := raw.boards.getD default_config.boards
  output_directory :=
    match raw.output with
    | none => default_config.output_directory
    | some o => o.directory.getD default_config.output_directory
  features :=
    match raw.features with
    | none => default_config.features
    | some f => mergeFeatures default_config.features f

/-- `load_config` (source lines 40-103).  The first argument models the
module flag `HAS_YAML` (line 77); the second the result of opening and
parsing the file (lines 81-103). -/
def load_config : Bool → LoadOutcome → Config
  | false, _ => default_config
  | true, .missing => default_config
  | true, .parseError => default_config
  | true, .parsed raw => mergeConfig raw

/-- The generator construction performed by `main` (source lines 516-527)
from a loaded configuration, with no command-line overrides: only the
`apriltag` section is consulted. -/
def mkGenerator (c : Config) : BoardGen where
  family := get_apriltag_family_id c.apriltag.family
  grid_x := c.apriltag.grid_x
  grid_y := c.apriltag.grid_y
  tag_size_mm := c.apriltag.tag_size_mm
  spacing_mm := c.apriltag.spacing_mm
  border_mm := c.apriltag.border_mm
  dpi := c.apriltag.dpi

/-- The numeric content of the calibration-configuration snippet written by
`save_specifications` (source lines 422-433).  Line 426 writes the literal
text `apriltag_family: 20  # 36h11`, independent of `self.family`; string
formatting (the `:.3f` rendering of the meter values) is elided. -/
structure CalibSnippet where
  board_type : ℤ
  apriltag_family : ℤ
  apriltag_grid_x : ℕ
  apriltag_grid_y : ℕ
  apriltag_size : ℚ
  apriltag_spacing : ℚ
  apriltag_board_id_ranges : List (ℤ × ℤ)
deriving DecidableEq

/-- Source lines 422-433: the values emitted into the calibration snippet. -/
def save_specifications_calib (g : BoardGen) (board_configs : List (ℤ × ℤ)) :
    CalibSnippet where
  board_type := 2
  apriltag_family := 20
  apriltag_grid_x := g.grid_x
  apriltag_grid_y := g.grid_y
  apriltag_size := g.tag_size_mm / 1000
  apriltag_spacing := g.spacing_mm / 1000
  apriltag_board_id_ranges := board_configs

/-- The generator the script builds from its built-in defaults: family
36h11 (OpenCV 20), 7×7 grid, 40mm tags, 10mm spacing, 10mm border,
300 DPI. -/
def gDefault : BoardGen where
  family := 20
  grid_x := 7
  grid_y := 7
  tag_size_mm := 40
  spacing_mm := 10
  border_mm := 10
  dpi := 300

theorem gDefault_eq_mkGenerator : gDefault = mkGenerator default_config := by
  decide

theorem placeColsAux_snd (k : ℕ) : ∀ (col : ℕ) (cur endId : ℤ) (row : ℕ),
    (placeColsAux k col cur endId row).2 = cur + min k (endId + 1 - cur).toNat := by
  induction k with
  | zero => intro col cur endId row; simp [placeColsAux]
  | succ k ih =>
    intro col cur endId row
    by_cases h : endId < cur
    · have h0 : (endId + 1 - cur).toNat = 0 := by omega
      simp [placeColsAux, h, h0]
    · have hmin : min (k + 1) (endId + 1 - cur).toNat
          = min k (endId + 1 - (cur + 1)).toNat + 1 := by omega
      simp only [placeColsAux, if_neg h]
      rw [ih (col + 1) (cur + 1), hmin]
      push_cast
      ring

theorem placeColsAux_fst (k : ℕ) : ∀ (col : ℕ) (cur endId : ℤ) (row : ℕ),
    (placeColsAux k col cur endId row).1 =
      (List.range (min k (endId + 1 - cur).toNat)).map
        (fun (i : ℕ) => ((cur + (i : ℤ), row, col + i) : Placement)) := by
  induction k with
  | zero => intro col cur endId row; simp [placeColsAux]
  | succ k ih =>
    intro col cur endId row
    by_cases h : endId < cur
    · have h0 : (endId + 1 - cur).toNat = 0 := by omega
      simp [placeColsAux, h, h0]
    · have hmin : min (k + 1) (endId + 1 - cur).toNat
          = min k (endId + 1 - (cur + 1)).toNat + 1 := by omega
      simp only [placeColsAux, if_neg h]
      rw [ih (col + 1) (cur + 1), hmin, List.range_succ_eq_map, List.map_cons, List.map_map]
      congr 1
      · simp
      · apply List.map_congr_left
        intro i _
        simp only [Function.comp_apply, Prod.mk.injEq]
        refine ⟨by push_cast; ring, by trivial, by omega⟩

theorem placeRowsAux_gx_zero (ky : ℕ) : ∀ (row : ℕ) (cur endId : ℤ),
    placeRowsAux ky row cur endId 0 = [] := by
  induction ky with
  | zero => intro row cur endId; rfl
  | succ ky ih =>
    intro row cur endId
    simp [placeRowsAux, placeColsAux, ih]

theorem placeRowsAux_eq (ky : ℕ) : ∀ (row : ℕ) (cur endId : ℤ) (gx : ℕ),
    placeRowsAux ky row cur endId gx =
      (List.range (min (ky * gx) (endId + 1 - cur).toNat)).map
        (fun (n : ℕ) => ((cur + (n : ℤ), row + n / gx, n % gx) : Placement)) := by
  induction ky with
  | zero => intro row cur endId gx; simp [placeRowsAux]
  | succ ky ih =>
    intro row cur endId gx
    rcases Nat.eq_zero_or_pos gx with hgx | hgx
    · subst hgx
      simp [placeRowsAux_gx_zero]
    · simp only [placeRowsAux]
      rw [placeColsAux_fst, placeColsAux_snd, ih (row + 1)]
      have hmul : (ky + 1) * gx = ky * gx + gx := by ring
      have hM : min ((ky + 1) * gx) (endId + 1 - cur).toNat
          = min gx (endId + 1 - cur).toNat
            + min (ky * gx)
                (endId + 1 - (cur + (min gx (endId + 1 - cur).toNat : ℕ))).toNat := by
        rw [hmul]; omega
      rw [hM, List.range_add, List.map_append, List.map_map]
      congr 1
      · apply List.map_congr_left
        intro i hi
        rw [List.mem_range] at hi
        have hilt : i < gx := lt_of_lt_of_le hi (min_le_left _ _)
        simp only [Prod.mk.injEq]
        exact ⟨by trivial, by simp [Nat.div_eq_of_lt hilt], by simp [Nat.mod_eq_of_lt hilt]⟩
      · apply List.map_congr_left
        intro n hn
        rw [List.mem_range] at hn
        have hm : min gx (endId + 1 - cur).toNat = gx := by omega
        simp only [Function.comp_apply, Prod.mk.injEq]
        refine ⟨by push_cast [hm]; ring, ?_, ?_⟩
        · rw [hm, Nat.add_comm gx n, Nat.add_div_right _ hgx]
          omega
        · rw [hm, Nat.add_mod_left]

theorem placements_eq (g : BoardGen) (s e : ℤ) :
    placements g s e =
      (List.range (min (g.grid_y * g.grid_x) (e + 1 - s).toNat)).map
        (fun (n : ℕ) => ((s + (n : ℤ), n / g.grid_x, n % g.grid_x) : Placement)) := by
  unfold placements
  rw [placeRowsAux_eq]
  simp

theorem requestedIds_eq (g : BoardGen) (s e : ℤ) :
    requestedIds g s e =
      (List.range (min (g.grid_y * g.grid_x) (e + 1 - s).toNat)).map
        (fun (n : ℕ) => (s + (n : ℤ))) := by
  unfold requestedIds
  rw [placements_eq, List.map_map]
  rfl

theorem placeTags_total (g : BoardGen) (gen : ℤ → Bitmap) (s e : ℤ) :
    placeTags g (fun id => some (gen id)) s e = some (placeTagsTotal g gen s e) := by
  unfold placeTags placeTagsTotal
  generalize initialBoard g = c0
  generalize placements g s e = l
  induction l generalizing c0 with
  | nil => rfl
  | cons pl l ih =>
    simp only [List.foldlM_cons, List.foldl_cons, Option.map_some', Option.some_bind]
    exact ih _

theorem placeTags_isSome_iff (g : BoardGen) (gen : ℤ → Option Bitmap) (s e : ℤ) :
    (placeTags g gen s e).isSome = true ↔
      ∀ pl ∈ placements g s e, (gen pl.1).isSome = true := by
  unfold placeTags
  generalize initialBoard g = c0
  generalize placements g s e = l
  induction l generalizing c0 with
  | nil => simp
  | cons pl l ih =>
    cases hg : gen pl.1 with
    | none => simp [List.foldlM_cons, hg]
    | some bm => simp [List.foldlM_cons, hg, ih]

theorem generate_board_isSome_iff (g : BoardGen) (gen : ℤ → Option Bitmap) (s e : ℤ) :
    (generate_board g gen s e).isSome = true ↔
      ∀ id ∈ requestedIds g s e, (gen id).isSome = true := by
  unfold generate_board
  rw [Option.isSome_map', placeTags_isSome_iff]
  unfold requestedIds
  constructor
  · intro h id hid
    rw [List.mem_map] at hid
    obtain ⟨pl, hpl, rfl⟩ := hid
    exact h pl hpl
  · intro h pl hpl
    exact h _ (List.mem_map_of_mem _ hpl)

theorem foldl_write_of_not_mem (g : BoardGen) (gen : ℤ → Bitmap) (l : List Placement)
    (c0 : Canvas) (y x : ℤ) (h : ∀ pl ∈ l, ¬ inWindow g pl.2.1 pl.2.2 y x) :
    (l.foldl (fun c pl =>
        writeBitmap c (tagY g pl.2.1) (tagX g pl.2.2) (tag_size_px g) (gen pl.1)) c0) y x
      = c0 y x := by
  induction l generalizing c0 with
  | nil => rfl
  | cons pl l ih =>
    rw [List.foldl_cons, ih _ (fun q hq => h q (List.mem_cons_of_mem _ hq))]
    have hpl := h pl (List.mem_cons_self _ _)
    simp only [writeBitmap]
    rw [if_neg]
    exact hpl

theorem foldl_write_window (g : BoardGen) (gen : ℤ → Bitmap) (A B : List Placement)
    (pl : Placement) (c0 : Canvas) (y x : ℤ)
    (hwin : inWindow g pl.2.1 pl.2.2 y x)
    (hB : ∀ q ∈ B, ¬ inWindow g q.2.1 q.2.2 y x) :
    ((A ++ pl :: B).foldl (fun c q =>
        writeBitmap c (tagY g q.2.1) (tagX g q.2.2) (tag_size_px g) (gen q.1)) c0) y x
      = gen pl.1 (y - tagY g pl.2.1) (x - tagX g pl.2.2) := by
  rw [List.foldl_append, List.foldl_cons]
  rw [foldl_write_of_not_mem g gen B _ y x hB]
  simp only [writeBitmap]
  rw [if_pos]
  exact hwin

theorem cellPos_disjoint (b t s : ℤ) (ht : 0 ≤ t) (hs : 0 ≤ s) {i j : ℕ} (hij : i < j)
    {z : ℤ} (h2 : z < b + (i : ℤ) * (t + s) + t) (h3 : b + (j : ℤ) * (t + s) ≤ z) :
    False := by
  have hd : (1 : ℤ) ≤ (j : ℤ) - (i : ℤ) := by
    have : (i : ℤ) < (j : ℤ) := by exact_mod_cast hij
    omega
  have hmul : (1 : ℤ) * (t + s) ≤ ((j : ℤ) - (i : ℤ)) * (t + s) :=
    mul_le_mul_of_nonneg_right hd (by linarith)
  have hexp : ((j : ℤ) - (i : ℤ)) * (t + s) = (j : ℤ) * (t + s) - (i : ℤ) * (t + s) := by
    ring
  linarith

theorem windows_disjoint (g : BoardGen) (ht : 0 ≤ tag_size_px g) (hs : 0 ≤ spacing_px g)
    {r c r' c' : ℕ} (hne : ¬(r = r' ∧ c = c')) {y x : ℤ}
    (h1 : inWindow g r c y x) (h2 : inWindow g r' c' y x) : False := by
  unfold inWindow tagY tagX at h1 h2
  obtain ⟨h1a, h1b, h1c, h1d⟩ := h1
  obtain ⟨h2a, h2b, h2c, h2d⟩ := h2
  rcases Nat.lt_trichotomy r r' with hr | hr | hr
  · exact cellPos_disjoint (border_px g) (tag_size_px g) (spacing_px g) ht hs hr h1b h2a
  · subst hr
    rcases Nat.lt_trichotomy c c' with hc | hc | hc
    · exact cellPos_disjoint (border_px g) (tag_size_px g) (spacing_px g) ht hs hc h1d h2c
    · exact hne ⟨rfl, hc⟩
    · exact cellPos_disjoint (border_px g) (tag_size_px g) (spacing_px g) ht hs hc h2d h1c
  · exact cellPos_disjoint (border_px g) (tag_size_px g) (spacing_px g) ht hs hr h2b h1a

theorem pyInt_nonneg {q : ℚ} (h : 0 ≤ q) : 0 ≤ pyInt q := by
  rw [pyInt_eq_floor h]
  exact Int.floor_nonneg.mpr h

theorem pixels_per_mm_nonneg (g : BoardGen) : 0 ≤ pixels_per_mm g := by
  unfold pixels_per_mm
  positivity

theorem tag_size_px_nonneg (g : BoardGen) (h : 0 ≤ g.tag_size_mm) : 0 ≤ tag_size_px g :=
  pyInt_nonneg (mul_nonneg h (pixels_per_mm_nonneg g))

theorem spacing_px_nonneg (g : BoardGen) (h : 0 ≤ g.spacing_mm) : 0 ≤ spacing_px g :=
  pyInt_nonneg (mul_nonneg h (pixels_per_mm_nonneg g))

theorem border_px_nonneg (g : BoardGen) (h : 0 ≤ g.border_mm) : 0 ≤ border_px g :=
  pyInt_nonneg (mul_nonneg h (pixels_per_mm_nonneg g))

theorem floor_sum_le (t s b p : ℚ) (ht : 0 ≤ t) (hs : 0 ≤ s) (hb : 0 ≤ b) (hp : 0 ≤ p)
    (n : ℕ) (hn : 1 ≤ n) :
    ⌊b * p⌋ + (n : ℤ) * ⌊t * p⌋ + ((n : ℤ) - 1) * ⌊s * p⌋
      ≤ ⌊((n : ℚ) * t + ((n : ℚ) - 1) * s + 2 * b) * p⌋ := by
  rw [Int.le_floor]
  have h1 : (⌊b * p⌋ : ℚ) ≤ b * p := Int.floor_le _
  have h2 : (⌊t * p⌋ : ℚ) ≤ t * p := Int.floor_le _
  have h3 : (⌊s * p⌋ : ℚ) ≤ s * p := Int.floor_le _
  have hn1 : (1 : ℚ) ≤ (n : ℚ) := by exact_mod_cast hn
  have hbp : 0 ≤ b * p := mul_nonneg hb hp
  have h4 : (n : ℚ) * (⌊t * p⌋ : ℚ) ≤ (n : ℚ) * (t * p) :=
    mul_le_mul_of_nonneg_left h2 (by linarith)
  have h5 : ((n : ℚ) - 1) * (⌊s * p⌋ : ℚ) ≤ ((n : ℚ) - 1) * (s * p) :=
    mul_le_mul_of_nonneg_left h3 (by linarith)
  have hring : ((n : ℚ) * t + ((n : ℚ) - 1) * s + 2 * b) * p
      = (n : ℚ) * (t * p) + ((n : ℚ) - 1) * (s * p) + 2 * (b * p) := by ring
  rw [hring]
  push_cast
  linarith

theorem tagX_nonneg (g : BoardGen) (ht : 0 ≤ g.tag_size_mm) (hs : 0 ≤ g.spacing_mm)
    (hb : 0 ≤ g.border_mm) (col : ℕ) : 0 ≤ tagX g col := by
  unfold tagX
  have h1 := tag_size_px_nonneg g ht
  have h2 := spacing_px_nonneg g hs
  have h3 := border_px_nonneg g hb
  have h4 : (0 : ℤ) ≤ (col : ℤ) * (tag_size_px g + spacing_px g) :=
    mul_nonneg (by positivity) (by linarith)
  linarith

theorem tagY_nonneg (g : BoardGen) (ht : 0 ≤ g.tag_size_mm) (hs : 0 ≤ g.spacing_mm)
    (hb : 0 ≤ g.border_mm) (row : ℕ) : 0 ≤ tagY g row := by
  unfold tagY
  have h1 := tag_size_px_nonneg g ht
  have h2 := spacing_px_nonneg g hs
  have h3 := border_px_nonneg g hb
  have h4 : (0 : ℤ) ≤ (row : ℤ) * (tag_size_px g + spacing_px g) :=
    mul_nonneg (by positivity) (by linarith)
  linarith

theorem tagX_add_tag_le_width (g : BoardGen) (ht : 0 ≤ g.tag_size_mm)
    (hs : 0 ≤ g.spacing_mm) (hb : 0 ≤ g.border_mm) (hgx : 1 ≤ g.grid_x)
    {col : ℕ} (hc : col < g.grid_x) :
    tagX g col + tag_size_px g ≤ board_width_px g := by
  have hp := pixels_per_mm_nonneg g
  have htp : tag_size_px g = ⌊g.tag_size_mm * pixels_per_mm g⌋ :=
    pyInt_eq_floor (mul_nonneg ht hp)
  have hsp : spacing_px g = ⌊g.spacing_mm * pixels_per_mm g⌋ :=
    pyInt_eq_floor (mul_nonneg hs hp)
  have hbp : border_px g = ⌊g.border_mm * pixels_per_mm g⌋ :=
    pyInt_eq_floor (mul_nonneg hb hp)
  have hgx1 : (1 : ℚ) ≤ (g.grid_x : ℚ) := by exact_mod_cast hgx
  have hwmm : 0 ≤ board_width_mm g := by
    unfold board_width_mm
    have h1 : 0 ≤ (g.grid_x : ℚ) * g.tag_size_mm := mul_nonneg (by linarith) ht
    have h2 : 0 ≤ ((g.grid_x : ℚ) - 1) * g.spacing_mm := mul_nonneg (by linarith) hs
    linarith
  have hW : board_width_px g = ⌊board_width_mm g * pixels_per_mm g⌋ :=
    pyInt_eq_floor (mul_nonneg hwmm hp)
  have hts : (0 : ℤ) ≤ tag_size_px g + spacing_px g := by
    have := tag_size_px_nonneg g ht
    have := spacing_px_nonneg g hs
    linarith
  have hcol : (col : ℤ) ≤ (g.grid_x : ℤ) - 1 := by omega
  have hstep : tagX g col + tag_size_px g
      ≤ border_px g + (g.grid_x : ℤ) * tag_size_px g
        + ((g.grid_x : ℤ) - 1) * spacing_px g := by
    unfold tagX
    have hmono : (col : ℤ) * (tag_size_px g + spacing_px g)
        ≤ ((g.grid_x : ℤ) - 1) * (tag_size_px g + spacing_px g) :=
      mul_le_mul_of_nonneg_right hcol hts
    have hexp : ((g.grid_x : ℤ) - 1) * (tag_size_px g + spacing_px g)
        = ((g.grid_x : ℤ) - 1) * tag_size_px g + ((g.grid_x : ℤ) - 1) * spacing_px g := by
      ring
    have := tag_size_px_nonneg g ht
    nlinarith
  refine le_trans hstep ?_
  rw [hW, htp, hsp, hbp]
  unfold board_width_mm
  exact floor_sum_le g.tag_size_mm g.spacing_mm g.border_mm (pixels_per_mm g)
    ht hs hb hp g.grid_x hgx

theorem tagY_add_tag_le_height (g : BoardGen) (ht : 0 ≤ g.tag_size_mm)
    (hs : 0 ≤ g.spacing_mm) (hb : 0 ≤ g.border_mm) (hgy : 1 ≤ g.grid_y)
    {row : ℕ} (hr : row < g.grid_y) :
    tagY g row + tag_size_px g ≤ board_height_px g := by
  have hp := pixels_per_mm_nonneg g
  have htp : tag_size_px g = ⌊g.tag_size_mm * pixels_per_mm g⌋ :=
    pyInt_eq_floor (mul_nonneg ht hp)
  have hsp : spacing_px g = ⌊g.spacing_mm * pixels_per_mm g⌋ :=
    pyInt_eq_floor (mul_nonneg hs hp)
  have hbp : border_px g = ⌊g.border_mm * pixels_per_mm g⌋ :=
    pyInt_eq_floor (mul_nonneg hb hp)
  have hgy1 : (1 : ℚ) ≤ (g.grid_y : ℚ) := by exact_mod_cast hgy
  have hwmm : 0 ≤ board_height_mm g := by
    unfold board_height_mm
    have h1 : 0 ≤ (g.grid_y : ℚ) * g.tag_size_mm := mul_nonneg (by linarith) ht
    have h2 : 0 ≤ ((g.grid_y : ℚ) - 1) * g.spacing_mm := mul_nonneg (by linarith) hs
    linarith
  have hW : board_height_px g = ⌊board_height_mm g * pixels_per_mm g⌋ :=
    pyInt_eq_floor (mul_nonneg hwmm hp)
  have hts : (0 : ℤ) ≤ tag_size_px g + spacing_px g := by
    have := tag_size_px_nonneg g ht
    have := spacing_px_nonneg g hs
    linarith
  have hrow : (row : ℤ) ≤ (g.grid_y : ℤ) - 1 := by omega
  have hstep : tagY g row + tag_size_px g
      ≤ border_px g + (g.grid_y : ℤ) * tag_size_px g
        + ((g.grid_y : ℤ) - 1) * spacing_px g := by
    unfold tagY
    have hmono : (row : ℤ) * (tag_size_px g + spacing_px g)
        ≤ ((g.grid_y : ℤ) - 1) * (tag_size_px g + spacing_px g) :=
      mul_le_mul_of_nonneg_right hrow hts
    have hexp : ((g.grid_y : ℤ) - 1) * (tag_size_px g + spacing_px g)
        = ((g.grid_y : ℤ) - 1) * tag_size_px g + ((g.grid_y : ℤ) - 1) * spacing_px g := by
      ring
    have := tag_size_px_nonneg g ht
    nlinarith
  refine le_trans hstep ?_
  rw [hW, htp, hsp, hbp]
  unfold board_height_mm
  exact floor_sum_le g.tag_size_mm g.spacing_mm g.border_mm (pixels_per_mm g)
    ht hs hb hp g.grid_y hgy

theorem pyInt_eval {q : ℚ} {z : ℤ} (h1 : 0 ≤ q) (h2 : ⌊q⌋ = z) : pyInt q = z := by
  rw [pyInt_eq_floor h1, h2]

theorem gDefault_board_width_mm : board_width_mm gDefault = 360 := by
  norm_num [board_width_mm, gDefault]

theorem gDefault_board_width_px : board_width_px gDefault = 4251 :=
  pyInt_eval (by norm_num [board_width_mm, pixels_per_mm, gDefault])
    (by norm_num [board_width_mm, pixels_per_mm, gDefault])

theorem gDefault_border_px : border_px gDefault = 118 :=
  pyInt_eval (by norm_num [pixels_per_mm, gDefault])
    (by norm_num [pixels_per_mm, gDefault])

theorem gDefault_tag_size_px : tag_size_px gDefault = 472 :=
  pyInt_eval (by norm_num [pixels_per_mm, gDefault])
    (by norm_num [pixels_per_mm, gDefault])

theorem gDefault_spacing_px : spacing_px gDefault = 118 :=
  pyInt_eval (by norm_num [pixels_per_mm, gDefault])
    (by norm_num [pixels_per_mm, gDefault])

/-- C2: for every generator state with positive millimeter sizes and grids of
at least 1, the constructor computes `pixels_per_mm = dpi / 25.4`, converts
each millimeter field to pixels by independent truncation (which on these
positive values is the floor), computes the millimeter board width/height by
the grid formula, and computes `board_width_px` as the floor of the
millimeter total times `pixels_per_mm` — not as the sum of the independently
floored per-field pixel values, from which it differs already on the default
configuration (4251 versus 2*118 + 7*472 + 6*118 = 4248). -/
theorem C2_constructor_geometry (g : BoardGen)
    (ht : 0 < g.tag_size_mm) (hs : 0 < g.spacing_mm) (hb : 0 < g.border_mm)
    (hgx : 1 ≤ g.grid_x) (hgy : 1 ≤ g.grid_y) :
    pixels_per_mm g = (g.dpi : ℚ) / 25.4
    ∧ tag_size_px g = ⌊g.tag_size_mm * pixels_per_mm g⌋
    ∧ spacing_px g = ⌊g.spacing_mm * pixels_per_mm g⌋
    ∧ border_px g = ⌊g.border_mm * pixels_per_mm g⌋
    ∧ board_width_mm g
        = (g.grid_x : ℚ) * g.tag_size_mm + ((g.grid_x : ℚ) - 1) * g.spacing_mm
          + 2 * g.border_mm
    ∧ board_height_mm g
        = (g.grid_y : ℚ) * g.tag_size_mm + ((g.grid_y : ℚ) - 1) * g.spacing_mm
          + 2 * g.border_mm
    ∧ board_width_px g = ⌊board_width_mm g * pixels_per_mm g⌋
    ∧ board_height_px g = ⌊board_height_mm g * pixels_per_mm g⌋
    ∧ board_width_px gDefault
        ≠ 2 * border_px gDefault + (gDefault.grid_x : ℤ) * tag_size_px gDefault
          + ((gDefault.grid_x : ℤ) - 1) * spacing_px gDefault := by
  have hp := pixels_per_mm_nonneg g
  have hgx1 : (1 : ℚ) ≤ (g.grid_x : ℚ) := by exact_mod_cast hgx
  have hgy1 : (1 : ℚ) ≤ (g.grid_y : ℚ) := by exact_mod_cast hgy
  have hwmm : 0 ≤ board_width_mm g := by
    unfold board_width_mm
    have h1 : 0 ≤ (g.grid_x : ℚ) * g.tag_size_mm := mul_nonneg (by linarith) ht.le
    have h2 : 0 ≤ ((g.grid_x : ℚ) - 1) * g.spacing_mm := mul_nonneg (by linarith) hs.le
    linarith
  have hhmm : 0 ≤ board_height_mm g := by
    unfold board_height_mm
    have h1 : 0 ≤ (g.grid_y : ℚ) * g.tag_size_mm := mul_nonneg (by linarith) ht.le
    have h2 : 0 ≤ ((g.grid_y : ℚ) - 1) * g.spacing_mm := mul_nonneg (by linarith) hs.le
    linarith
  have hneq : board_width_px gDefault
      ≠ 2 * border_px gDefault + (gDefault.grid_x : ℤ) * tag_size_px gDefault
        + ((gDefault.grid_x : ℤ) - 1) * spacing_px gDefault := by
    rw [gDefault_board_width_px, gDefault_border_px, gDefault_tag_size_px,
      gDefault_spacing_px]
    decide
  exact ⟨rfl, pyInt_eq_floor (mul_nonneg ht.le hp), pyInt_eq_floor (mul_nonneg hs.le hp),
    pyInt_eq_floor (mul_nonneg hb.le hp), rfl, rfl,
    pyInt_eq_floor (mul_nonneg hwmm hp), pyInt_eq_floor (mul_nonneg hhmm hp), hneq⟩

theorem C2_witness :
    (0 < gDefault.tag_size_mm ∧ 0 < gDefault.spacing_mm ∧ 0 < gDefault.border_mm
      ∧ 1 ≤ gDefault.grid_x ∧ 1 ≤ gDefault.grid_y)
    ∧ board_width_px gDefault = ⌊board_width_mm gDefault * pixels_per_mm gDefault⌋ :=
  ⟨⟨by norm_num [gDefault], by norm_num [gDefault], by norm_num [gDefault],
    by norm_num [gDefault], by norm_num [gDefault]⟩,
   (C2_constructor_geometry gDefault (by norm_num [gDefault]) (by norm_num [gDefault])
      (by norm_num [gDefault]) (by norm_num [gDefault])
      (by norm_num [gDefault])).2.2.2.2.2.2.1⟩

/-- C3 counterexample: on the stated scenario (7×7 grid, 40mm tags, 10mm
spacing, 10mm border, 300 DPI) the claimed conjunction fails:
board_width_mm is indeed 360 but board_width_px is int(360 * 300/25.4) =
int(4251.968...) = 4251, not 4252. -/
theorem C3_counterexample :
    ¬ (board_width_mm gDefault = 360 ∧ board_width_px gDefault = 4252) := by
  intro h
  have h2 := gDefault_board_width_px
  rw [h.2] at h2
  exact absurd h2 (by decide)

/-- C3 amended: for grid 7×7, tag 40mm, spacing 10mm, border 10mm, 300 DPI
and range [0, 48]: board_width_mm = 360 and board_width_px = 4251 (the
claim said 4252); 49 markers are placed with IDs 0 through 48 in row-major
order, the last in row 6, column 6. -/
theorem C3_default_scenario :
    board_width_mm gDefault = 360
    ∧ board_width_px gDefault = 4251
    ∧ (placements gDefault 0 48).length = 49
    ∧ placements gDefault 0 48
        = (List.range 49).map (fun (k : ℕ) => (((k : ℤ), k / 7, k % 7) : Placement))
    ∧ (placements gDefault 0 48).getLast? = some (48, 6, 6) :=
  ⟨gDefault_board_width_mm, gDefault_board_width_px, by decide, by decide, by decide⟩

/-- C5 counterexample: configure the family as 25h9 (OpenCV code 18); the
calibration snippet written by save_specifications still reports
apriltag_family = 20 (36h11's code), not the generator's family
identifier. -/
theorem C5_counterexample :
    (mkGenerator { default_config with
        apriltag := { default_config.apriltag with family := "25h9" } }).family = 18
    ∧ (save_specifications_calib
        (mkGenerator { default_config with
          apriltag := { default_config.apriltag with family := "25h9" } })
        [(0, 48)]).apriltag_family = 20
    ∧ (save_specifications_calib
        (mkGenerator { default_config with
          apriltag := { default_config.apriltag with family := "25h9" } })
        [(0, 48)]).apriltag_family
        ≠ (mkGenerator { default_config with
            apriltag := { default_config.apriltag with family := "25h9" } }).family := by
  refine ⟨by decide, rfl, by decide⟩

/-- C5 amended: the calibration snippet's apriltag_family value is the
constant 20 (36h11's OpenCV code) for every generator state, so it equals
the generator's family identifier exactly when that identifier is
36h11's. -/
theorem C5_family_always_36h11 (g : BoardGen) (bs : List (ℤ × ℤ)) :
    (save_specifications_calib g bs).apriltag_family = DICT_APRILTAG_36h11
    ∧ ((save_specifications_calib g bs).apriltag_family = g.family
        ↔ g.family = DICT_APRILTAG_36h11) :=
  ⟨rfl, eq_comm⟩

/-- C6: the separator-square side drawn by generate_board is the hard-coded
int(10 * pixels_per_mm); the features.corner_square_size_mm configuration
field is never read by the generator construction or by board generation,
so changing it to any value changes nothing. -/
theorem C6_square_size_hardcoded (cfg : Config) (q : ℚ) (gen : ℤ → Option Bitmap)
    (s e : ℤ) :
    mkGenerator { cfg with features := { cfg.features with corner_square_size_mm := q } }
        = mkGenerator cfg
    ∧ corner_square_size (mkGenerator cfg)
        = pyInt (10 * pixels_per_mm (mkGenerator cfg))
    ∧ generate_board
        (mkGenerator { cfg with
          features := { cfg.features with corner_square_size_mm := q } }) gen s e
        = generate_board (mkGenerator cfg) gen s e :=
  ⟨rfl, rfl, rfl⟩

/-- C8: whenever the configuration file is missing or fails to parse as
YAML, load_config returns the fixed built-in default configuration (and,
being a total function of those outcomes, never raises). -/
theorem C8_load_config_defaults (hasYaml : Bool) :
    load_config hasYaml .missing = default_config
    ∧ load_config hasYaml .parseError = default_config := by
  cases hasYaml <;> exact ⟨rfl, rfl⟩

/-- C9: for every generator state with positive millimeter sizes and grids
of at least 1, the destination window of every grid cell (row < grid_y,
col < grid_x) lies entirely inside the allocated canvas of
board_height_px × board_width_px pixels, so the marker copy never clips or
fails with a shape mismatch. -/
theorem C9_window_in_canvas (g : BoardGen)
    (ht : 0 < g.tag_size_mm) (hs : 0 < g.spacing_mm) (hb : 0 < g.border_mm)
    (hgx : 1 ≤ g.grid_x) (hgy : 1 ≤ g.grid_y)
    (row col : ℕ) (hr : row < g.grid_y) (hc : col < g.grid_x) :
    0 ≤ tagX g col ∧ tagX g col + tag_size_px g ≤ board_width_px g
    ∧ 0 ≤ tagY g row ∧ tagY g row + tag_size_px g ≤ board_height_px g :=
  ⟨tagX_nonneg g ht.le hs.le hb.le col,
   tagX_add_tag_le_width g ht.le hs.le hb.le hgx hc,
   tagY_nonneg g ht.le hs.le hb.le row,
   tagY_add_tag_le_height g ht.le hs.le hb.le hgy hr⟩

theorem C9_witness :
    (0 < gDefault.tag_size_mm ∧ (6 : ℕ) < gDefault.grid_y ∧ (6 : ℕ) < gDefault.grid_x)
    ∧ tagX gDefault 6 + tag_size_px gDefault ≤ board_width_px gDefault :=
  ⟨⟨by norm_num [gDefault], by norm_num [gDefault], by norm_num [gDefault]⟩,
   (C9_window_in_canvas gDefault (by norm_num [gDefault]) (by norm_num [gDefault])
      (by norm_num [gDefault]) (by norm_num [gDefault]) (by norm_num [gDefault])
      6 6 (by norm_num [gDefault]) (by norm_num [gDefault])).2.1⟩

/-- C10: when the ID range exceeds the grid capacity
(end - start + 1 > grid_x * grid_y), generate_board enforces no capacity
limit: it fills all grid_x * grid_y cells with IDs
start..start + grid_x*grid_y - 1 in row-major order, requests exactly
grid_x * grid_y bitmaps, silently ignores the remaining IDs, and succeeds
whenever the generator succeeds on the requested IDs. -/
theorem C10_overflow_fills_grid (g : BoardGen) (gen : ℤ → Option Bitmap) (s e : ℤ)
    (hcap : g.grid_x * g.grid_y < (e + 1 - s).toNat) :
    placements g s e = (List.range (g.grid_x * g.grid_y)).map
        (fun (k : ℕ) => ((s + (k : ℤ), k / g.grid_x, k % g.grid_x) : Placement))
    ∧ requestedIds g s e
        = (List.range (g.grid_x * g.grid_y)).map (fun (k : ℕ) => (s + (k : ℤ)))
    ∧ (requestedIds g s e).length = g.grid_x * g.grid_y
    ∧ ((∀ id ∈ requestedIds g s e, (gen id).isSome = true) →
        (generate_board g gen s e).isSome = true) := by
  have hmin : min (g.grid_y * g.grid_x) (e + 1 - s).toNat = g.grid_x * g.grid_y := by
    have hcomm : g.grid_x * g.grid_y = g.grid_y * g.grid_x := Nat.mul_comm _ _
    omega
  have h1 : placements g s e = (List.range (g.grid_x * g.grid_y)).map
      (fun (k : ℕ) => ((s + (k : ℤ), k / g.grid_x, k % g.grid_x) : Placement)) := by
    rw [placements_eq, hmin]
  have h2 : requestedIds g s e
      = (List.range (g.grid_x * g.grid_y)).map (fun (k : ℕ) => (s + (k : ℤ))) := by
    rw [requestedIds_eq, hmin]
  refine ⟨h1, h2, ?_, ?_⟩
  · rw [h2, List.length_map, List.length_range]
  · intro hgen
    exact (generate_board_isSome_iff g gen s e).mpr hgen

theorem C10_witness :
    (gDefault.grid_x * gDefault.grid_y < ((100 : ℤ) + 1 - 0).toNat)
    ∧ (requestedIds gDefault 0 100).length = gDefault.grid_x * gDefault.grid_y :=
  ⟨by decide,
   (C10_overflow_fills_grid gDefault (fun _ => none) 0 100 (by decide)).2.2.1⟩

/-- C7: generate_board yields no board (the generator's failure propagates)
exactly when the bitmap request fails for some ID in the placed range; when
every request succeeds the result is the fully composited board — never a
partially substituted canvas with a placeholder. -/
theorem C7_failure_propagation (g : BoardGen) (gen : ℤ → Option Bitmap) (s e : ℤ) :
    (generate_board g gen s e = none ↔ ∃ id ∈ requestedIds g s e, gen id = none)
    ∧ (∀ gen' : ℤ → Bitmap,
        generate_board g (fun id => some (gen' id)) s e
          = some (drawSquares g (placeTagsTotal g gen' s e))) := by
  constructor
  · have h := generate_board_isSome_iff g gen s e
    have h2 : generate_board g gen s e = none
        ↔ ¬((generate_board g gen s e).isSome = true) := by
      cases generate_board g gen s e <;> simp
    rw [h2, h]
    push_neg
    constructor
    · rintro ⟨id, hid, hns⟩
      refine ⟨id, hid, ?_⟩
      cases hgen : gen id
      · rfl
      · rw [hgen] at hns
        simp at hns
    · rintro ⟨id, hid, hgen⟩
      exact ⟨id, hid, by simp [hgen]⟩
  · intro gen'
    unfold generate_board
    rw [placeTags_total]
    rfl

/-- C4: for every generator state, exactly (grid_x+1)*(grid_y+1) separator
squares are attempted; painting a square never touches a pixel outside
[0, board_height_px) × [0, board_width_px); a square lying entirely outside
the canvas paints zero pixels (the canvas is unchanged); and every pixel of
the clipped visible portion is painted value 0. -/
theorem C4_squares_clipped (g : BoardGen) :
    (squareCells g).length = (g.grid_x + 1) * (g.grid_y + 1)
    ∧ (∀ row col : ℕ, ∀ c : Canvas, ∀ y x : ℤ,
        (y < 0 ∨ board_height_px g ≤ y ∨ x < 0 ∨ board_width_px g ≤ x) →
        drawSquare g row col c y x = c y x)
    ∧ (∀ row col : ℕ, ∀ c : Canvas,
        (squareY g row + corner_square_size g ≤ 0 ∨ board_height_px g ≤ squareY g row
          ∨ squareX g col + corner_square_size g ≤ 0
          ∨ board_width_px g ≤ squareX g col) →
        drawSquare g row col c = c)
    ∧ (∀ row col : ℕ, ∀ c : Canvas, ∀ y x : ℤ,
        max 0 (squareY g row) ≤ y →
        y < min (board_height_px g) (squareY g row + corner_square_size g) →
        max 0 (squareX g col) ≤ x →
        x < min (board_width_px g) (squareX g col + corner_square_size g) →
        drawSquare g row col c y x = 0) := by
  refine ⟨?_, ?_, ?_, ?_⟩
  · simp only [squareCells]
    rw [List.length_flatMap]
    simp only [Function.comp_def, List.length_map, List.length_range]
    rw [List.map_const', List.sum_replicate, List.length_range, smul_eq_mul,
      Nat.mul_comm]
  · intro row col c y x h
    simp only [drawSquare]
    split_ifs with h1
    · simp only [writeRect]
      rw [if_neg (by omega)]
    · rfl
  · intro row col c h
    funext y x
    simp only [drawSquare]
    split_ifs with h1
    · exfalso
      omega
    · rfl
  · intro row col c y x hy1 hy2 hx1 hx2
    simp only [drawSquare]
    split_ifs with h1
    · simp only [writeRect]
      rw [if_pos (by omega)]
    · exfalso
      omega

theorem C4_witness :
    ((-1 : ℤ) < 0 ∨ board_height_px gDefault ≤ -1 ∨ (0 : ℤ) < 0
      ∨ board_width_px gDefault ≤ 0)
    ∧ drawSquare gDefault 0 0 (fun _ _ => 9) (-1) 0 = 9 :=
  ⟨Or.inl (by decide),
   (C4_squares_clipped gDefault).2.1 0 0 (fun _ _ => 9) (-1) 0 (Or.inl (by decide))⟩

/-- C1: for every grid and ID range of size n = end - start + 1 with
n ≤ grid_x * grid_y (and positive millimeter sizes), generate_board requests
exactly n marker bitmaps with consecutive IDs start..start+n-1 assigned in
strict row-major order (cell k is row k / grid_x, column k % grid_x); each
placed bitmap's window has its top-left corner at
(border_px + col*(tag_size_px+spacing_px), border_px + row*(tag_size_px+spacing_px))
and holds that marker's pixels in the composited tag layer; every cell
beyond the range receives no marker and keeps the white (255) background of
the tag layer. -/
theorem C1_row_major_placement (g : BoardGen) (gen : ℤ → Bitmap) (s e : ℤ)
    (ht : 0 < g.tag_size_mm) (hsp : 0 < g.spacing_mm) (hb : 0 < g.border_mm)
    (hse : s ≤ e) (hcap : (e + 1 - s).toNat ≤ g.grid_x * g.grid_y) :
    requestedIds g s e = (List.range (e + 1 - s).toNat).map (fun (k : ℕ) => s + (k : ℤ))
    ∧ placements g s e = (List.range (e + 1 - s).toNat).map
        (fun (k : ℕ) => ((s + (k : ℤ), k / g.grid_x, k % g.grid_x) : Placement))
    ∧ (∀ row col : ℕ,
        tagX g col = border_px g + (col : ℤ) * (tag_size_px g + spacing_px g)
        ∧ tagY g row = border_px g + (row : ℤ) * (tag_size_px g + spacing_px g))
    ∧ placeTags g (fun id => some (gen id)) s e = some (placeTagsTotal g gen s e)
    ∧ (∀ k : ℕ, k < (e + 1 - s).toNat → ∀ y x : ℤ,
        inWindow g (k / g.grid_x) (k % g.grid_x) y x →
        placeTagsTotal g gen s e y x
          = gen (s + (k : ℤ)) (y - tagY g (k / g.grid_x)) (x - tagX g (k % g.grid_x)))
    ∧ (∀ k : ℕ, (e + 1 - s).toNat ≤ k → ∀ y x : ℤ,
        inWindow g (k / g.grid_x) (k % g.grid_x) y x →
        placeTagsTotal g gen s e y x = 255) := by
  have hts : 0 ≤ tag_size_px g := tag_size_px_nonneg g ht.le
  have hss : 0 ≤ spacing_px g := spacing_px_nonneg g hsp.le
  have hmin : min (g.grid_y * g.grid_x) (e + 1 - s).toNat = (e + 1 - s).toNat := by
    have hcomm : g.grid_x * g.grid_y = g.grid_y * g.grid_x := Nat.mul_comm _ _
    omega
  have hplc : placements g s e = (List.range (e + 1 - s).toNat).map
      (fun (k : ℕ) => ((s + (k : ℤ), k / g.grid_x, k % g.grid_x) : Placement)) := by
    rw [placements_eq, hmin]
  have hreq : requestedIds g s e
      = (List.range (e + 1 - s).toNat).map (fun (k : ℕ) => s + (k : ℤ)) := by
    rw [requestedIds_eq, hmin]
  refine ⟨hreq, hplc, fun row col => ⟨rfl, rfl⟩, placeTags_total g gen s e, ?_, ?_⟩
  · intro k hk y x hwin
    set n := (e + 1 - s).toNat with hn
    set f : ℕ → Placement :=
      fun k => ((s + (k : ℤ), k / g.grid_x, k % g.grid_x) : Placement) with hf
    have hsplit : (List.range n).map f
        = (List.range k).map f
          ++ f k :: ((List.range (n - k - 1)).map (f ∘ fun i => k + 1 + i)) := by
      conv_lhs => rw [show n = (k + 1) + (n - k - 1) by omega]
      rw [List.range_add, List.range_succ, List.map_append, List.map_append,
        List.map_map]
      simp [List.append_assoc]
    have hrw : placeTagsTotal g gen s e
        = ((List.range k).map f
            ++ f k :: ((List.range (n - k - 1)).map (f ∘ fun i => k + 1 + i))).foldl
            (fun c pl =>
              writeBitmap c (tagY g pl.2.1) (tagX g pl.2.2) (tag_size_px g) (gen pl.1))
            (initialBoard g) := by
      unfold placeTagsTotal
      rw [hplc, hsplit]
    rw [hrw]
    have hB : ∀ q ∈ (List.range (n - k - 1)).map (f ∘ fun i => k + 1 + i),
        ¬ inWindow g q.2.1 q.2.2 y x := by
      intro q hq hby
      rw [List.mem_map] at hq
      obtain ⟨i, hi, rfl⟩ := hq
      rw [List.mem_range] at hi
      have hby' : inWindow g ((k + 1 + i) / g.grid_x) ((k + 1 + i) % g.grid_x) y x := hby
      refine windows_disjoint g hts hss ?_ hby' hwin
      rintro ⟨hdiv, hmod⟩
      have e1 := Nat.div_add_mod (k + 1 + i) g.grid_x
      have e2 := Nat.div_add_mod k g.grid_x
      rw [hdiv, hmod] at e1
      omega
    exact foldl_write_window g gen _ _ (f k) (initialBoard g) y x hwin hB
  · intro k hk y x hwin
    have hnm : ∀ pl ∈ placements g s e, ¬ inWindow g pl.2.1 pl.2.2 y x := by
      intro pl hpl hby
      rw [hplc, List.mem_map] at hpl
      obtain ⟨j, hj, rfl⟩ := hpl
      rw [List.mem_range] at hj
      have hby' : inWindow g (j / g.grid_x) (j % g.grid_x) y x := hby
      refine windows_disjoint g hts hss ?_ hby' hwin
      rintro ⟨hdiv, hmod⟩
      have e1 := Nat.div_add_mod j g.grid_x
      have e2 := Nat.div_add_mod k g.grid_x
      rw [hdiv, hmod] at e1
      omega
    unfold placeTagsTotal
    rw [foldl_write_of_not_mem g gen _ _ y x hnm]
    rfl

theorem C1_witness :
    ((0 : ℚ) < gDefault.tag_size_mm ∧ (0 : ℤ) ≤ 10
      ∧ ((10 : ℤ) + 1 - 0).toNat ≤ gDefault.grid_x * gDefault.grid_y)
    ∧ requestedIds gDefault 0 10
        = (List.range ((10 : ℤ) + 1 - 0).toNat).map (fun (k : ℕ) => (0 : ℤ) + (k : ℤ)) :=
  ⟨⟨by norm_num [gDefault], by norm_num, by decide⟩,
   (C1_row_major_placement gDefault (fun _ _ _ => 0) 0 10 (by norm_num [gDefault])
      (by norm_num [gDefault]) (by norm_num [gDefault]) (by norm_num) (by decide)).1⟩
